import Mathlib

/-!
Verification of the training-loop orchestration core of `train.py`
(ViT fine-tuning script).

The shallow embedding below translates the pieces of `train.py` that the
spec talks about: the checkpoint writer `save_model_complete`
(lines 59-70), the resume logic at the top of `train` (lines 273-288),
the gradient-accumulation micro-batch loop (lines 304-326), the
step-budget termination checks (lines 347-351), the best-accuracy
retention policy (lines 342-344), the rank gating of side effects
(lines 206-208, 294, 331-345, 353), the dataset class-count selection in
`setup` (lines 77-82) and the fixed 40-class one-hot encoding inside
`mAp` (lines 176, 187).  Opaque tensor blobs (model state dictionaries,
optimizer state dictionaries) are modelled as natural numbers; Python
floats as rationals; Python `None` as `Option.none`; Python runtime
errors as `Except`.
-/

namespace ViT

/-- Opaque model state dictionary blob (`model.state_dict()`). -/
abbrev ModelState := Nat

/-- Opaque optimizer state dictionary blob (`optimizer.state_dict()`). -/
abbrev OptState := Nat

/-- Python runtime errors that the modelled code can raise. -/
inductive PyError where
  | typeError
  | indexError
deriving DecidableEq

/-- The record written by `save_model_complete` (train.py lines 64-69):
keys `step`, `model_state_dict`, `optimizer_state_dict`,
`best_accuracy`.  `best_accuracy` is the `accuracy` argument, which may
be Python `None`. -/
structure Checkpoint where
  step : Nat
  model_state_dict : ModelState
  optimizer_state_dict : OptState
  best_accuracy : Option ℚ
deriving DecidableEq

/-- A file loaded by `torch.load` at resume time (train.py line 281):
either a complete-state record (a dict containing the key
`model_state_dict`, line 282) or a bare weights state dictionary. -/
inductive CheckpointFile where
  | complete (c : Checkpoint)
  | weightsOnly (w : ModelState)
deriving DecidableEq

/-- Destination of a checkpoint written by `save_model_complete`
(train.py lines 60-63): either the best-accuracy scheme
`output_dir/best_acc_step_{step}_acc_{acc}_checkpoint.pth` or the
every-checkpoint scheme
`output_dir_every_checkpoint/step_{step}_checkpoint.pth`. -/
inductive SavePath where
  | bestAcc (step : Nat) (acc : ℚ)
  | everyStep (step : Nat)
deriving DecidableEq

/-- Whether a save path is the best-accuracy scheme. -/
def SavePath.isBest : SavePath → Bool
  | SavePath.bestAcc _ _ => true
  | SavePath.everyStep _ => false

/-- Python truthiness of the `accuracy` argument, as tested by
`if not accuracy:` at train.py line 60: `None`, `0` and `0.0` are all
falsy. -/
def truthy : Option ℚ → Bool
  | none => false
  | some v => decide (v ≠ 0)

/-- Models `save_model_complete` (train.py lines 59-70): chooses the
destination path by Python truthiness of `accuracy` and writes the
record `(step, model_state_dict, optimizer_state_dict, best_accuracy)`
with `best_accuracy` set to the raw `accuracy` argument. -/
def save_model_complete (model : ModelState) (optimizer : OptState)
    (accuracy : Option ℚ) (step : Nat) : SavePath × Checkpoint :=
  (if truthy accuracy then SavePath.bestAcc step (accuracy.getD 0)
   else SavePath.everyStep step,
   ⟨step, model, optimizer, accuracy⟩)

/-- The in-memory state right after the resume block of `train`
(train.py lines 273-288). -/
structure ResumeState where
  global_step : Nat
  best_acc : Option ℚ
  model_weights : ModelState
  optimizer_state : OptState
deriving DecidableEq

/-- Models train.py lines 273-288.  `global_step, best_acc = 0, 0` is
executed first (line 273).  If `args.input_dir` is supplied the file is
loaded; when it contains the key `model_state_dict` the model weights
and `best_acc` are taken from it — the lines restoring the optimizer
state and `global_step` (lines 284-285) are commented out in the
source — otherwise the file itself is loaded as the weights. -/
def resume (initWeights : ModelState) (initOpt : OptState)
    (input_dir : Option CheckpointFile) : ResumeState :=
  match input_dir with
  | none => ⟨0, some 0, initWeights, initOpt⟩
  | some (CheckpointFile.complete c) =>
      ⟨0, c.best_accuracy, c.model_state_dict, initOpt⟩
  | some (CheckpointFile.weightsOnly w) => ⟨0, some 0, w, initOpt⟩

/-- Python comparison `best_acc < accuracy` (train.py line 342) where
`best_acc` may be `None`: in Python 3 comparing `None` with a float
raises `TypeError`. -/
def pyLt (a : Option ℚ) (b : ℚ) : Except PyError Bool :=
  match a with
  | none => Except.error PyError.typeError
  | some x => Except.ok (decide (x < b))

/-! ### Gradient-accumulation loop (train.py lines 297-351)

The inner loop runs `for step, batch in enumerate(epoch_iterator)`, so
`step` is the zero-based index of the micro-batch **within the current
epoch**.  Each micro-batch accumulates gradients (`loss.backward()`);
when `(step + 1) % gradient_accumulation_steps == 0` the optimizer
steps, gradients are zeroed and `global_step` is incremented
(lines 317-326), and immediately afterwards the loop breaks if
`global_step % t_total == 0` (lines 347-348); after the epoch the outer
`while True` loop breaks under the same condition (lines 350-351).

`LoopState.pending` counts micro-batches whose gradients have been
accumulated since the last `optimizer.zero_grad()`. -/

/-- Mutable state of the training loop that the claims are about. -/
structure LoopState where
  global_step : Nat
  pending : Nat
deriving DecidableEq

/-- The accumulation-window completion test
`(step + 1) % gradient_accumulation_steps == 0` (train.py line 317). -/
def windowComplete (K step : Nat) : Bool := (step + 1) % K == 0

/-- One micro-batch of the inner loop body (train.py lines 304-326):
`loss.backward()` accumulates one more micro-batch of gradients; if the
window completes, the optimizer steps, gradients are zeroed and
`global_step` is incremented by one. -/
def processBatch (K : Nat) (s : LoopState) (step : Nat) : LoopState :=
  if windowComplete K step then ⟨s.global_step + 1, 0⟩
  else ⟨s.global_step, s.pending + 1⟩

/-- The first `n` micro-batches of an epoch (indices `0..n-1`), without
the step-budget break of line 347.  This is the micro-batch dynamics
that claims about accumulation windows quantify over. -/
def processN (K : Nat) (s : LoopState) : Nat → LoopState
  | 0 => s
  | n + 1 => processBatch K (processN K s n) n

/-- The inner epoch loop with the step-budget break (train.py
lines 304-348): processes micro-batches at indices `step`,
`step + 1`, ... while `rem` batches remain, stopping early when a
completed window leaves `global_step % t_total == 0`. -/
def epochLoop (K T : Nat) (s : LoopState) (step : Nat) : Nat → LoopState
  | 0 => s
  | rem + 1 =>
    let s1 := processBatch K s step
    if windowComplete K step && (s1.global_step % T == 0) then s1
    else epochLoop K T s1 (step + 1) rem

/-- The outer `while True` loop (train.py lines 297-351): each epoch
re-enumerates the train loader from index 0 with `B` micro-batches, and
after the epoch the loop breaks when `global_step % t_total == 0`
(line 350).  `fuel` bounds the number of epochs; `none` means the
budgeted number of epochs did not reach the break. -/
def trainLoop (K T B : Nat) (s : LoopState) : Nat → Option LoopState
  | 0 => none
  | fuel + 1 =>
    let s1 := epochLoop K T s 0 B
    if s1.global_step % T == 0 then some s1
    else trainLoop K T B s1 fuel

/-! ### Best-checkpoint retention policy (train.py lines 342-344)

At each evaluation the code runs `if best_acc < accuracy:` then saves
and sets `best_acc = accuracy`.  `processAccs` folds that body over a
sequence of observed accuracies, returning the final retained best and,
for each observation, whether a best-checkpoint save occurred. -/

/-- Folds the best-checkpoint body (train.py lines 342-344) over a list
of observed validation accuracies, starting from retained best `best`.
Returns the final retained best and the per-observation save flags. -/
def processAccs (best : ℚ) : List ℚ → ℚ × List Bool
  | [] => (best, [])
  | a :: rest =>
    let p := processAccs (if best < a then a else best) rest
    (p.1, decide (best < a) :: p.2)

/-! ### Rank gating of side effects -/

/-- The primary-worker test `args.local_rank in [-1, 0]` (train.py
lines 206, 331, 337, 353). -/
def is_primary (local_rank : Int) : Bool := local_rank == -1 || local_rank == 0

/-- Externally visible side-effect kinds of `train`. -/
inductive Action where
  | makeOutputDirAndWriter
  | mapEval
  | validEval
  | logScalar
  | saveCheckpoint
  | closeWriter
deriving DecidableEq

/-- Side effects of the startup section of `train` (train.py
lines 206-294): the output directory and metrics writer are created only
on the primary worker (lines 206-208), but the initial
`mAp(args, model, writer, test_loader, global_step=-1)` call (line 294)
is unconditional. -/
def startupEffects (local_rank : Int) : List Action :=
  (if is_primary local_rank then [Action.makeOutputDirAndWriter] else []) ++
    [Action.mapEval]

/-- Side effects inside one completed accumulation window (train.py
lines 328-345): train-loss and learning-rate scalars are emitted only on
the primary worker (line 331); validation, the mAP pass and the
conditional best checkpoint run only when `global_step % eval_every == 0`
on the primary worker (lines 337-344). -/
def windowEffects (local_rank : Int) (global_step eval_every : Nat)
    (best_acc accuracy : ℚ) : List Action :=
  (if is_primary local_rank then [Action.logScalar] else []) ++
    (if global_step % eval_every = 0 ∧ is_primary local_rank = true then
      [Action.validEval, Action.mapEval] ++
        (if best_acc < accuracy then [Action.saveCheckpoint] else [])
    else [])

/-- Side effects after the loop (train.py line 353): the writer is
closed only on the primary worker. -/
def endEffects (local_rank : Int) : List Action :=
  if is_primary local_rank then [Action.closeWriter] else []

/-! ### Dataset class counts and the mAP evaluation pass -/

/-- The dataset choices accepted by the argument parser (train.py
line 364). -/
inductive Dataset where
  | cifar10
  | cifar100
  | stanford40
deriving DecidableEq

/-- Class count selected in `setup` (train.py lines 77-82). -/
def num_classes : Dataset → Nat
  | Dataset.cifar10 => 10
  | Dataset.stanford40 => 40
  | Dataset.cifar100 => 100

/-- Models `torch.nn.functional.one_hot(y, num_classes=nc)`: a length
`nc` indicator vector, failing when the label is out of range. -/
def one_hot (nc y : Nat) : Except PyError (List Nat) :=
  if y < nc then
    Except.ok ((List.range nc).map fun i => if i = y then 1 else 0)
  else Except.error PyError.indexError

/-- The class count hard-coded in the one-hot call of `mAp` (train.py
line 187: `one_hot(y, num_classes=40)`). -/
def mAp_num_classes : Nat := 40

/-- The confusion-matrix size hard-coded in `mAp` (train.py line 176:
`ConfusionMeter(k=40)`). -/
def mAp_confusion_k : Nat := 40

/-- One-hot encoding of a single label inside the `mAp` evaluation pass
(train.py line 187). -/
def mAp_one_hot (y : Nat) : Except PyError (List Nat) :=
  one_hot mAp_num_classes y

/-- One-hot encoding of every label seen during the `mAp` evaluation
pass (train.py lines 183-195), failing at the first out-of-range
label. -/
def mAp_encode_labels : List Nat → Except PyError (List (List Nat))
  | [] => Except.ok []
  | y :: rest =>
    match mAp_one_hot y with
    | Except.error e => Except.error e
    | Except.ok v =>
      match mAp_encode_labels rest with
      | Except.error e => Except.error e
      | Except.ok vs => Except.ok (v :: vs)

/-! ### Learning-rate schedule -/

/-- Decay kinds accepted by `--decay_type` (train.py line 404). -/
inductive DecayKind where
  | linear
  | cosine
deriving DecidableEq

/-- Modelled from the spec: the post-warmup progress fraction of the
warmup schedules `WarmupLinearSchedule` and `WarmupCosineSchedule`
(selected at train.py lines 247-250 but implemented in
`utils/scheduler.py`, which is not part of the provided sources):
`(step - warmup_steps) / max(total_steps - warmup_steps, 1)` clamped to
`[0, 1]`. -/
def schedProgress (W T step : Nat) : ℚ :=
  min 1 (max 0 (((step : ℚ) - (W : ℚ)) / max ((T : ℚ) - (W : ℚ)) 1))

/-- Modelled from the spec: the warmup-phase multiplier
`step / max(warmup_steps, 1)` of both schedules (implemented in
`utils/scheduler.py`, not part of the provided sources). -/
def warmupMult (W step : Nat) : ℚ := (step : ℚ) / max (W : ℚ) 1

/-- Modelled from the spec: the full linear-decay schedule
`WarmupLinearSchedule` (implemented in `utils/scheduler.py`, not part of
the provided sources): warmup ramp below `W`, then `1 - progress`. -/
def rateLinear (W T step : Nat) : ℚ :=
  if step < W then warmupMult W step else 1 - schedProgress W T step

/-- Modelled from the spec: the graph of the cosine-decay schedule
`WarmupCosineSchedule` (implemented in `utils/scheduler.py`, not part of
the provided sources): warmup ramp below `W`, then
`0.5 * (1 + cos(pi * progress))`. -/
def rateCosineIs (W T step : Nat) (v : ℝ) : Prop :=
  if step < W then v = ((warmupMult W step : ℚ) : ℝ)
  else v = (1 / 2 : ℝ) * (1 + Real.cos (Real.pi * ((schedProgress W T step : ℚ) : ℝ)))

/-! ## Theorems -/

/-- C2 (counterexample): resuming from a complete-state checkpoint with
`step = 5` and `optimizer_state_dict = 9` leaves `global_step` at `0`
(not the stored `5`) and the optimizer state at its initial value `0`
(not the stored `9`), because the restoring lines are commented out in
the source; so the claim that the complete-state path restores the
optimizer state and step counter is false. -/
theorem resume_complete_drops_step_and_optimizer :
    (resume 0 0 (some (CheckpointFile.complete ⟨5, 7, 9, some (1/2)⟩))).global_step = 0 ∧
    (resume 0 0 (some (CheckpointFile.complete ⟨5, 7, 9, some (1/2)⟩))).optimizer_state = 0 ∧
    (0 : Nat) ≠ 5 ∧ (0 : Nat) ≠ 9 :=
  ⟨rfl, rfl, by decide, by decide⟩

/-- C2 (amended): on resume, model weights are always restored (from
the `model_state_dict` field of a complete-state checkpoint, or from the
bare file otherwise) and a complete-state checkpoint additionally
restores only `best_acc`; the optimizer state is never restored and
`global_step` always restarts at 0. -/
theorem resume_semantics (w0 : ModelState) (o0 : OptState) (f : CheckpointFile) :
    (resume w0 o0 (some f)).global_step = 0 ∧
    (resume w0 o0 (some f)).optimizer_state = o0 ∧
    (resume w0 o0 (some f)).model_weights =
      (match f with
       | CheckpointFile.complete c => c.model_state_dict
       | CheckpointFile.weightsOnly w => w) ∧
    (resume w0 o0 (some f)).best_acc =
      (match f with
       | CheckpointFile.complete c => c.best_accuracy
       | CheckpointFile.weightsOnly _ => some 0) := by
  cases f <;> exact ⟨rfl, rfl, rfl, rfl⟩

/-- C8: `save_model_complete` writes to the best-accuracy path exactly
when the `accuracy` argument is Python-truthy; in particular a call with
`accuracy = None` or `accuracy = 0.0` is routed to the every-N-steps
directory under the step-named scheme. -/
theorem save_model_complete_path_by_truthiness (m : ModelState) (o : OptState)
    (acc : Option ℚ) (step : Nat) :
    (save_model_complete m o acc step).1.isBest = truthy acc ∧
    (save_model_complete m o none step).1 = SavePath.everyStep step ∧
    (save_model_complete m o (some 0) step).1 = SavePath.everyStep step := by
  refine ⟨?_, rfl, ?_⟩
  · unfold save_model_complete
    cases h : truthy acc <;> simp [h, SavePath.isBest]
  · unfold save_model_complete
    simp [truthy]

/-- C9: a complete-state checkpoint produced by the periodic save path
stores `best_accuracy = None`; resuming from it sets the in-memory
`best_acc` to `None`, and the subsequent Python comparison
`best_acc < accuracy` raises `TypeError`, so the run cannot get past its
first best-accuracy comparison. -/
theorem resume_periodic_checkpoint_breaks_comparison (m : ModelState) (o : OptState)
    (step : Nat) (w0 : ModelState) (o0 : OptState) (a : ℚ) :
    ((save_model_complete m o none step).2).best_accuracy = none ∧
    (save_model_complete m o none step).1 = SavePath.everyStep step ∧
    (resume w0 o0 (some (CheckpointFile.complete (save_model_complete m o none step).2))).best_acc
      = none ∧
    pyLt (resume w0 o0
        (some (CheckpointFile.complete (save_model_complete m o none step).2))).best_acc a
      = Except.error PyError.typeError :=
  ⟨rfl, rfl, rfl, rfl⟩

/-- C4 (counterexample): a worker with rank 1 is not the designated
primary, yet the startup section of `train` still executes the mAP
evaluation call of line 294 — it is not guarded by the primary-worker
condition. -/
theorem nonprimary_runs_startup_map :
    is_primary 1 = false ∧ Action.mapEval ∈ startupEffects 1 := by
  exact ⟨rfl, by decide⟩

/-- C4 (amended): on a non-primary worker, no logging, checkpointing or
evaluation action runs inside the training loop or at shutdown, and the
startup section performs no action except the unconditional mAP
evaluation of line 294. -/
theorem nonprimary_effects (local_rank : Int)
    (h : is_primary local_rank = false) :
    startupEffects local_rank = [Action.mapEval] ∧
    (∀ gs ee : Nat, ∀ b a : ℚ, windowEffects local_rank gs ee b a = []) ∧
    endEffects local_rank = [] := by
  refine ⟨?_, ?_, ?_⟩
  · simp [startupEffects, h]
  · intro gs ee b a
    simp [windowEffects, h]
  · simp [endEffects, h]

/-- C4 (witness): instantiation of `nonprimary_effects` at rank 1. -/
theorem nonprimary_effects_witness :
    startupEffects 1 = [Action.mapEval] ∧ windowEffects 1 100 100 0 (1/2) = [] :=
  ⟨(nonprimary_effects 1 rfl).1, (nonprimary_effects 1 rfl).2.1 100 100 0 (1/2)⟩

/-- Helper for C10: encoding fails as soon as the label list contains a
label that is out of range for the hard-coded 40-class one-hot. -/
theorem mAp_encode_labels_fails {labels : List Nat} {y : Nat}
    (hy : y ∈ labels) (h40 : 40 ≤ y) :
    mAp_encode_labels labels = Except.error PyError.indexError := by
  induction labels with
  | nil => cases hy
  | cons z rest ih =>
    by_cases hz : z < 40
    · have hyr : y ∈ rest := by
        rcases List.mem_cons.mp hy with rfl | hmem
        · omega
        · exact hmem
      unfold mAp_encode_labels mAp_one_hot one_hot mAp_num_classes
      simp only [if_pos hz, ih hyr]
    · unfold mAp_encode_labels mAp_one_hot one_hot mAp_num_classes
      simp only [if_neg hz]

/-- C10: the `mAp` evaluation pass one-hot encodes with exactly 40
classes and uses a 40x40 confusion matrix, independent of the dataset
option (whose class counts are 10 for cifar10, 40 for stanford40 and 100
otherwise); any label less than 40 encodes to a length-40 vector, and
any dataset containing a label at least 40 makes the evaluation pass
fail. -/
theorem mAp_hardcodes_forty_classes (ds : Dataset) (labels : List Nat) (y : Nat) :
    mAp_num_classes = 40 ∧ mAp_confusion_k = 40 ∧
    num_classes Dataset.cifar10 = 10 ∧ num_classes Dataset.stanford40 = 40 ∧
    num_classes Dataset.cifar100 = 100 ∧
    (num_classes ds = mAp_num_classes ↔ ds = Dataset.stanford40) ∧
    (y < 40 → ∃ v, mAp_one_hot y = Except.ok v ∧ v.length = 40) ∧
    (y ∈ labels → 40 ≤ y →
      mAp_encode_labels labels = Except.error PyError.indexError) := by
  refine ⟨rfl, rfl, rfl, rfl, rfl, ?_, ?_, fun hy h40 => mAp_encode_labels_fails hy h40⟩
  · cases ds <;> simp [num_classes, mAp_num_classes]
  · intro hlt
    refine ⟨(List.range 40).map fun i => if i = y then 1 else 0, ?_, by simp⟩
    unfold mAp_one_hot one_hot mAp_num_classes
    simp only [if_pos hlt]

/-- C10 (witness): instantiation of `mAp_hardcodes_forty_classes` on the
stanford40 dataset with label list `[1, 41]` and label `41`. -/
theorem mAp_hardcodes_forty_classes_witness :
    (41 ∈ [1, 41] ∧ 40 ≤ 41) ∧
    mAp_encode_labels [1, 41] = Except.error PyError.indexError :=
  ⟨⟨by decide, by decide⟩,
   (mAp_hardcodes_forty_classes Dataset.stanford40 [1, 41] 41).2.2.2.2.2.2.2
     (by decide) (by decide)⟩

/-- Helper for C5: the conditional update of `best_acc` at train.py
lines 342-344 is a running maximum. -/
theorem ite_lt_eq_max (b a : ℚ) : (if b < a then a else b) = max b a := by
  rcases le_or_lt a b with h | h
  · rw [if_neg (not_lt.mpr h), max_eq_left h]
  · rw [if_pos h, max_eq_right h.le]

/-- Helper for C5: the retained best after processing a sequence of
accuracies is the fold of `max` over them. -/
theorem processAccs_fst (as : List ℚ) : ∀ b : ℚ, (processAccs b as).1 = as.foldl max b := by
  induction as with
  | nil => intro b; rfl
  | cons a rest ih =>
    intro b
    show (processAccs (if b < a then a else b) rest).1 = List.foldl max (max b a) rest
    rw [ih, ite_lt_eq_max]

/-- Helper for C5: one save flag is recorded per observed accuracy. -/
theorem processAccs_length (as : List ℚ) : ∀ b : ℚ, (processAccs b as).2.length = as.length := by
  induction as with
  | nil => intro b; rfl
  | cons a rest ih =>
    intro b
    show ((processAccs (if b < a then a else b) rest).2.length + 1) = rest.length + 1
    rw [ih]

/-- Helper for C5: the save flag of the i-th observation is set exactly
when that observation strictly exceeds the running maximum of the
initial best and all earlier observations. -/
theorem processAccs_get (as : List ℚ) :
    ∀ (b : ℚ) (i : Nat) (h : i < (processAccs b as).2.length) (h2 : i < as.length),
      (processAccs b as).2.get ⟨i, h⟩ =
        decide ((as.take i).foldl max b < as.get ⟨i, h2⟩) := by
  induction as with
  | nil => intro b i h h2; exact absurd h2 (Nat.not_lt_zero i)
  | cons a rest ih =>
    intro b i h h2
    cases i with
    | zero => rfl
    | succ i =>
      have h3 : i < (processAccs (if b < a then a else b) rest).2.length := by
        rw [processAccs_length]
        exact Nat.lt_of_succ_lt_succ h2
      have hstep : (processAccs b (a :: rest)).2.get ⟨i + 1, h⟩ =
          (processAccs (if b < a then a else b) rest).2.get ⟨i, h3⟩ := rfl
      rw [hstep, ih (if b < a then a else b) i h3 (Nat.lt_of_succ_lt_succ h2)]
      have htake : ((a :: rest).take (i + 1)).foldl max b =
          (rest.take i).foldl max (max b a) := rfl
      rw [ite_lt_eq_max, ← htake]
      rfl

/-- C5: starting from an initial best of 0, processing a nonempty
sequence of nonnegative observed accuracies retains exactly the maximum
of the sequence, and a best-checkpoint save occurs at exactly those
indices whose accuracy strictly exceeds the running maximum of the
initial best 0 and all earlier observations (ties do not save). -/
theorem best_checkpoint_policy (a : ℚ) (rest : List ℚ)
    (hpos : ∀ x ∈ a :: rest, 0 ≤ x) :
    (processAccs 0 (a :: rest)).1 = rest.foldl max a ∧
    (processAccs 0 (a :: rest)).2.length = (a :: rest).length ∧
    (∀ (i : Nat) (h : i < (processAccs 0 (a :: rest)).2.length)
        (h2 : i < (a :: rest).length),
      (processAccs 0 (a :: rest)).2.get ⟨i, h⟩ =
        decide (((a :: rest).take i).foldl max 0 < (a :: rest).get ⟨i, h2⟩)) := by
  refine ⟨?_, processAccs_length _ _, fun i h h2 => processAccs_get _ _ _ _ _⟩
  rw [processAccs_fst]
  show List.foldl max (max 0 a) rest = List.foldl max a rest
  rw [max_eq_right (hpos a (List.mem_cons_self a rest))]

/-- C5 (witness): instantiation of `best_checkpoint_policy` on the
accuracy sequence `[1/2, 1/4, 3/4]`. -/
theorem best_checkpoint_policy_witness :
    (processAccs 0 [(1:ℚ)/2, 1/4, 3/4]).1 = List.foldl max ((1:ℚ)/2) [1/4, 3/4] :=
  (best_checkpoint_policy ((1:ℚ)/2) [1/4, 3/4]
    (by intro x hx; fin_cases hx <;> norm_num)).1

/-- Helper: unfolding one micro-batch of `processN`. -/
theorem processN_succ (K : Nat) (s : LoopState) (n : Nat) :
    processN K s (n + 1) = processBatch K (processN K s n) n := rfl

/-- Helper for C1: after `n` micro-batches of an epoch, `global_step`
has advanced by exactly the number of completed accumulation windows,
`n / K`. -/
theorem processN_global_step (K : Nat) (hK : 1 ≤ K) (s : LoopState) :
    ∀ n, (processN K s n).global_step = s.global_step + n / K := by
  intro n
  induction n with
  | zero => simp [processN, Nat.zero_div]
  | succ n ih =>
    have hdiv : (n + 1) / K = n / K + if K ∣ (n + 1) then 1 else 0 := Nat.succ_div n K
    rw [processN_succ]
    by_cases h : (n + 1) % K = 0
    · have hd : K ∣ (n + 1) := Nat.dvd_of_mod_eq_zero h
      simp only [processBatch]
      rw [if_pos (by simp [windowComplete, h])]
      simp only [ih, hdiv, if_pos hd]
      omega
    · have hd : ¬ K ∣ (n + 1) := by
        intro hdd
        obtain ⟨c, hc⟩ := hdd
        rw [hc, Nat.mul_mod_right] at h
        exact h rfl
      simp only [processBatch]
      rw [if_neg (by simp [windowComplete, h])]
      simp only [ih, hdiv, if_neg hd]
      omega

/-- Helper for C1: any window of `K` consecutive in-epoch micro-batch
indices contains exactly one index at which the window-complete test
fires. -/
theorem windowComplete_uniq (K : Nat) (hK : 1 ≤ K) (m : Nat) :
    ∃! i, m ≤ i ∧ i < m + K ∧ windowComplete K i = true := by
  have hK0 : 0 < K := hK
  have hdm : K * (m / K) + m % K = m := Nat.div_add_mod m K
  have hmod : m % K < K := Nat.mod_lt m hK0
  have hub : m < K * (m / K + 1) := by
    rw [Nat.mul_add, Nat.mul_one]
    linarith
  have hlb : K * (m / K + 1) ≤ m + K := by
    rw [Nat.mul_add, Nat.mul_one]
    linarith [Nat.zero_le (m % K)]
  have hpos : 1 ≤ K * (m / K + 1) := by
    calc 1 ≤ K := hK
    _ ≤ K * (m / K + 1) := Nat.le_mul_of_pos_right K (Nat.succ_pos _)
  have hcancel : K * (m / K + 1) - 1 + 1 = K * (m / K + 1) := Nat.sub_add_cancel hpos
  refine ⟨K * (m / K + 1) - 1, ⟨Nat.le_pred_of_lt hub, ?_, ?_⟩, ?_⟩
  · exact Nat.lt_of_lt_of_le (Nat.sub_lt (Nat.lt_of_lt_of_le Nat.one_pos hpos) Nat.one_pos) hlb
  · unfold windowComplete
    rw [hcancel]
    simp [Nat.mul_mod_right]
  · rintro j ⟨hj1, hj2, hj3⟩
    have hj3' : (j + 1) % K = 0 := by simpa [windowComplete] using hj3
    obtain ⟨t, ht⟩ := Nat.dvd_of_mod_eq_zero hj3'
    have htub : t < m / K + 2 := by
      apply Nat.lt_of_mul_lt_mul_left (a := K)
      calc K * t = j + 1 := ht.symm
      _ ≤ m + K := hj2
      _ < K * (m / K + 2) := by rw [Nat.mul_add]; linarith
    have htlb : m / K < t := by
      apply Nat.lt_of_mul_lt_mul_left (a := K)
      calc K * (m / K) ≤ m := by linarith [Nat.zero_le (m % K)]
      _ < j + 1 := Nat.lt_succ_of_le hj1
      _ = K * t := ht
    have heq : t = m / K + 1 := by omega
    rw [heq] at ht
    exact Nat.eq_sub_of_add_eq ht

/-- C1: for every accumulation factor `K` of at least 1, within one
epoch the window-complete test fires exactly once in every span of `K`
consecutive micro-batch indices; `global_step` advances by exactly 1
after `K` micro-batches (and by exactly 1 over every further span of
`K`), is unchanged after `K - 1` micro-batches, and never changes on a
micro-batch whose window-complete test is false. -/
theorem accumulation_window_invariant (K g p : Nat) (hK : 1 ≤ K) :
    (processN K ⟨g, p⟩ K).global_step = g + 1 ∧
    (processN K ⟨g, p⟩ (K - 1)).global_step = g ∧
    (∀ m, (processN K ⟨g, p⟩ (m + K)).global_step
        = (processN K ⟨g, p⟩ m).global_step + 1) ∧
    (∀ m, ∃! i, m ≤ i ∧ i < m + K ∧ windowComplete K i = true) ∧
    (∀ (s : LoopState) (i : Nat), windowComplete K i = false →
      (processBatch K s i).global_step = s.global_step) := by
  have hK0 : 0 < K := hK
  refine ⟨?_, ?_, ?_, windowComplete_uniq K hK, ?_⟩
  · rw [processN_global_step K hK _ K, Nat.div_self hK0]
  · rw [processN_global_step K hK _ (K - 1),
      Nat.div_eq_of_lt (Nat.sub_lt hK0 Nat.one_pos), Nat.add_zero]
  · intro m
    rw [processN_global_step K hK _ (m + K), processN_global_step K hK _ m,
      Nat.add_div_right m hK0]
    omega
  · intro s i h
    simp [processBatch, h]

/-- C1 (witness): instantiation of `accumulation_window_invariant` at
accumulation factor 3. -/
theorem accumulation_window_invariant_witness :
    (processN 3 ⟨0, 0⟩ 3).global_step = 0 + 1 ∧ (processN 3 ⟨0, 0⟩ 2).global_step = 0 :=
  ⟨(accumulation_window_invariant 3 0 0 (by decide)).1,
   (accumulation_window_invariant 3 0 0 (by decide)).2.1⟩

/-- Helper for C3: after a `B`-batch epoch started with zeroed
gradients, `B % K` micro-batches of gradients are still pending. -/
theorem processN_pending (K : Nat) (hK : 1 ≤ K) (g : Nat) :
    ∀ B, (processN K ⟨g, 0⟩ B).pending = B % K := by
  intro B
  induction B with
  | zero => simp [processN, Nat.zero_mod]
  | succ n ih =>
    rw [processN_succ]
    by_cases h : (n + 1) % K = 0
    · simp only [processBatch]
      rw [if_pos (by simp [windowComplete, h]), h]
    · have hmod : (n + 1) % K = n % K + 1 := by
        have h1 : n % K < K := Nat.mod_lt n hK
        have h2 : K * (n / K) + n % K = n := Nat.div_add_mod n K
        have h3 : (n + 1) % K = (n % K + 1) % K := by
          conv_lhs => rw [← h2]
          rw [Nat.add_assoc, Nat.mul_add_mod]
        rcases Nat.lt_or_ge (n % K + 1) K with h4 | h4
        · rw [h3, Nat.mod_eq_of_lt h4]
        · have h5 : n % K + 1 = K := by omega
          rw [h3, h5, Nat.mod_self] at h
          exact absurd rfl h
      simp only [processBatch]
      rw [if_neg (by simp [windowComplete, h])]
      show (processN K ⟨g, 0⟩ n).pending + 1 = (n + 1) % K
      rw [ih, hmod]

/-- Helper for C3: fewer than `K` micro-batches into an epoch, no window
has completed: `global_step` is untouched and the pending gradient count
has merely grown, whatever it was at the epoch boundary. -/
theorem processN_small (K : Nat) (s : LoopState) :
    ∀ n, n < K → processN K s n = ⟨s.global_step, s.pending + n⟩ := by
  intro n
  induction n with
  | zero => intro _; rfl
  | succ n ih =>
    intro h
    have hn : n < K := Nat.lt_of_succ_lt h
    rw [processN_succ, ih hn]
    have hc : windowComplete K n = false := by
      simp only [windowComplete, beq_eq_false_iff_ne, ne_eq]
      rw [Nat.mod_eq_of_lt h]
      omega
    simp only [processBatch]
    rw [if_neg (by simp [hc]), Nat.add_assoc]

/-- C3 (counterexample): with accumulation factor 4 and a 6-batch epoch,
the trailing window holds 2 pending micro-batches at the epoch boundary;
the claim predicts the window-complete condition fires after 2 more
micro-batches (4 counted across the boundary), but after 2 micro-batches
of the new epoch `global_step` is still 1 — no update fired even though
4 micro-batches of gradients are pending, because the in-epoch counter
`step` restarted at 0. -/
theorem epoch_boundary_counterexample :
    (processN 4 ⟨0, 0⟩ 6).global_step = 1 ∧
    (processN 4 ⟨0, 0⟩ 6).pending = 2 ∧
    (processN 4 (processN 4 ⟨0, 0⟩ 6) 2).global_step = 1 ∧
    (processN 4 (processN 4 ⟨0, 0⟩ 6) 2).pending = 4 := by
  decide

/-- C3 (amended): the window counter is the in-epoch loop index, so it
restarts at 0 at every epoch boundary while the pending gradients of a
non-full trailing window (of size `B % K`) carry over un-zeroed; the
first window of the new epoch completes only after `K` micro-batches of
the new epoch alone — not after `K` micro-batches counted across the
boundary — at which point `global_step` advances by 1 and the update has
merged `B % K + K` micro-batches of gradients. -/
theorem epoch_boundary_resets_window_counter (K B g : Nat) (hK : 1 ≤ K)
    (hr : 0 < B % K) :
    (processN K ⟨g, 0⟩ B).pending = B % K ∧
    (∀ n, n < K →
      (processN K (processN K ⟨g, 0⟩ B) n).global_step
          = (processN K ⟨g, 0⟩ B).global_step ∧
      (processN K (processN K ⟨g, 0⟩ B) n).pending = B % K + n) ∧
    windowComplete K (K - 1) = true ∧
    (processN K (processN K ⟨g, 0⟩ B) K).global_step
        = (processN K ⟨g, 0⟩ B).global_step + 1 ∧
    (processN K (processN K ⟨g, 0⟩ B) K).pending = 0 := by
  obtain ⟨K', rfl⟩ : ∃ K', K = K' + 1 := ⟨K - 1, by omega⟩
  have hp := processN_pending (K' + 1) hK g B
  refine ⟨hp, ?_, ?_, ?_, ?_⟩
  · intro n hn
    constructor
    · rw [processN_small (K' + 1) _ n hn]
    · rw [processN_small (K' + 1) _ n hn]
      show (processN (K' + 1) ⟨g, 0⟩ B).pending + n = B % (K' + 1) + n
      rw [hp]
  · show windowComplete (K' + 1) K' = true
    simp [windowComplete, Nat.mod_self]
  · rw [processN_succ, processN_small (K' + 1) _ K' (Nat.lt_succ_self K')]
    simp [processBatch, windowComplete, Nat.mod_self]
  · rw [processN_succ, processN_small (K' + 1) _ K' (Nat.lt_succ_self K')]
    simp [processBatch, windowComplete, Nat.mod_self]

/-- C3 (witness): instantiation of `epoch_boundary_resets_window_counter`
at accumulation factor 4 and epoch length 6. -/
theorem epoch_boundary_resets_window_counter_witness :
    (0 < 6 % 4) ∧
    (processN 4 (processN 4 ⟨0, 0⟩ 6) 4).global_step
      = (processN 4 ⟨0, 0⟩ 6).global_step + 1 :=
  ⟨by decide,
   (epoch_boundary_resets_window_counter 4 6 0 (by decide) (by decide)).2.2.2.1⟩

/-- Helper: unfolding one micro-batch of the inner epoch loop. -/
theorem epochLoop_succ (K T : Nat) (s : LoopState) (step rem : Nat) :
    epochLoop K T s step (rem + 1) =
      if windowComplete K step && ((processBatch K s step).global_step % T == 0) then
        processBatch K s step
      else epochLoop K T (processBatch K s step) (step + 1) rem := rfl

/-- Helper: unfolding one epoch of the outer loop. -/
theorem trainLoop_succ (K T B : Nat) (s : LoopState) (fuel : Nat) :
    trainLoop K T B s (fuel + 1) =
      if (epochLoop K T s 0 B).global_step % T == 0 then some (epochLoop K T s 0 B)
      else trainLoop K T B (epochLoop K T s 0 B) fuel := rfl

/-- Helper for C6: a micro-batch advances `global_step` by at most 1,
and never decreases it. -/
theorem processBatch_gs_bounds (K : Nat) (s : LoopState) (i : Nat) :
    s.global_step ≤ (processBatch K s i).global_step ∧
    (processBatch K s i).global_step ≤ s.global_step + 1 := by
  simp only [processBatch]
  split <;> simp

/-- Helper for C6: `global_step` never decreases across an epoch. -/
theorem epochLoop_gs_mono (K T : Nat) :
    ∀ (rem step : Nat) (s : LoopState),
      s.global_step ≤ (epochLoop K T s step rem).global_step := by
  intro rem
  induction rem with
  | zero => intro step s; exact le_refl _
  | succ rem ih =>
    intro step s
    rw [epochLoop_succ]
    have hb := (processBatch_gs_bounds K s step).1
    by_cases hc :
        (windowComplete K step && ((processBatch K s step).global_step % T == 0)) = true
    · rw [if_pos hc]; exact hb
    · rw [if_neg hc]; exact le_trans hb (ih (step + 1) (processBatch K s step))

/-- Helper for C6: starting below the step budget `T`, an epoch never
pushes `global_step` past `T`, because the in-window break of line 347
fires at the very update where `global_step` becomes a multiple of
`T`. -/
theorem epochLoop_gs_le_total (K T : Nat) (hT : 1 ≤ T) :
    ∀ (rem step : Nat) (s : LoopState), s.global_step < T →
      (epochLoop K T s step rem).global_step ≤ T := by
  intro rem
  induction rem with
  | zero => intro step s h; exact le_of_lt h
  | succ rem ih =>
    intro step s h
    rw [epochLoop_succ]
    have hb := (processBatch_gs_bounds K s step).2
    by_cases hc :
        (windowComplete K step && ((processBatch K s step).global_step % T == 0)) = true
    · rw [if_pos hc]; omega
    · rw [if_neg hc]
      apply ih
      by_cases hw : windowComplete K step = true
      · have hmod : (processBatch K s step).global_step % T ≠ 0 := by
          intro hm
          exact hc (by rw [hw]; simpa using hm)
        have hne : (processBatch K s step).global_step ≠ T := by
          intro he
          exact hmod (by rw [he, Nat.mod_self])
        omega
      · have hw' : windowComplete K step = false := by
          rwa [Bool.not_eq_true] at hw
        have : (processBatch K s step).global_step = s.global_step := by
          simp [processBatch, hw']
        omega

/-- Helper for C6: an epoch that contains a completing micro-batch index
strictly advances `global_step`. -/
theorem epochLoop_gs_progress (K T : Nat) :
    ∀ (rem step : Nat) (s : LoopState),
      (∃ j, j < rem ∧ windowComplete K (step + j) = true) →
      s.global_step < (epochLoop K T s step rem).global_step := by
  intro rem
  induction rem with
  | zero =>
    rintro step s ⟨j, hj, _⟩
    omega
  | succ rem ih =>
    rintro step s ⟨j, hj, hw⟩
    rw [epochLoop_succ]
    by_cases hw0 : windowComplete K step = true
    · have hgs : (processBatch K s step).global_step = s.global_step + 1 := by
        simp [processBatch, hw0]
      by_cases hc :
          (windowComplete K step && ((processBatch K s step).global_step % T == 0)) = true
      · rw [if_pos hc, hgs]; omega
      · rw [if_neg hc]
        have := epochLoop_gs_mono K T rem (step + 1) (processBatch K s step)
        omega
    · have hw0' : windowComplete K step = false := by
        rwa [Bool.not_eq_true] at hw0
      rw [if_neg (by simp [hw0'])]
      have hgs : (processBatch K s step).global_step = s.global_step := by
        simp [processBatch, hw0']
      have hj0 : j ≠ 0 := by
        intro he
        rw [he, Nat.add_zero, hw0'] at hw
        exact absurd hw (by simp)
      obtain ⟨j', rfl⟩ : ∃ j', j = j' + 1 := ⟨j - 1, by omega⟩
      have hrec := ih (step + 1) (processBatch K s step)
        ⟨j', by omega, by rw [show step + 1 + j' = step + (j' + 1) from by omega]; exact hw⟩
      omega

/-- Helper for C6: with a positive step budget `T`, at least one
micro-batch per accumulation window per epoch, and enough epochs of
fuel, the outer loop terminates in the state whose `global_step` is
exactly `T`. -/
theorem trainLoop_reaches (K T B : Nat) (hK : 1 ≤ K) (hT : 1 ≤ T) (hB : K ≤ B) :
    ∀ (fuel : Nat) (s0 : LoopState), s0.global_step < T → T - s0.global_step ≤ fuel →
      ∃ s, trainLoop K T B s0 fuel = some s ∧ s.global_step = T := by
  intro fuel
  induction fuel with
  | zero =>
    intro s0 h1 h2
    exact absurd h1 (by omega)
  | succ f ih =>
    intro s0 h1 h2
    have hprog : s0.global_step < (epochLoop K T s0 0 B).global_step := by
      apply epochLoop_gs_progress
      refine ⟨K - 1, by omega, ?_⟩
      rw [show (0 : Nat) + (K - 1) = K - 1 from by omega]
      simp [windowComplete, Nat.sub_add_cancel hK, Nat.mod_self]
    have hle : (epochLoop K T s0 0 B).global_step ≤ T :=
      epochLoop_gs_le_total K T hT B 0 s0 h1
    rw [trainLoop_succ]
    by_cases hc : ((epochLoop K T s0 0 B).global_step % T == 0) = true
    · rw [if_pos hc]
      refine ⟨_, rfl, ?_⟩
      have hmod : (epochLoop K T s0 0 B).global_step % T = 0 := by simpa using hc
      obtain ⟨c, hcc⟩ := Nat.dvd_of_mod_eq_zero hmod
      have hc1 : 1 ≤ c := by
        rcases Nat.eq_zero_or_pos c with rfl | hcp
        · rw [Nat.mul_zero] at hcc
          omega
        · exact hcp
      have hc2 : c ≤ 1 := by
        apply Nat.le_of_mul_le_mul_left _ hT
        rw [Nat.mul_one, ← hcc]
        exact hle
      have hceq : c = 1 := le_antisymm hc2 hc1
      rw [hceq, Nat.mul_one] at hcc
      exact hcc
    · rw [if_neg hc]
      have hmod : (epochLoop K T s0 0 B).global_step % T ≠ 0 := by simpa using hc
      have hlt : (epochLoop K T s0 0 B).global_step < T := by
        rcases Nat.lt_or_ge (epochLoop K T s0 0 B).global_step T with hh | hh
        · exact hh
        · exact absurd (by rw [le_antisymm hle hh, Nat.mod_self]) hmod
      exact ih _ hlt (by omega)

/-- C6 (counterexample): with accumulation factor 2, total steps 3 and a
1-batch epoch, no window ever completes, so after the first epoch the
end-of-epoch check `global_step % t_total == 0` holds with
`global_step = 0` and the run terminates having performed 0 optimizer
steps, not 3. -/
theorem training_early_exit_counterexample :
    trainLoop 2 3 1 ⟨0, 0⟩ 5 = some ⟨0, 1⟩ ∧ (0 : Nat) ≠ 3 :=
  ⟨by decide, by decide⟩

/-- C6 (amended): for a run started at `global_step = 0` with total
steps `T` of at least 1, provided every epoch supplies at least `K`
micro-batches (so each epoch completes at least one window), the loop
terminates via the modulo check at exactly `global_step = T`: exactly
`T` optimizer steps are performed, none after termination; without that
proviso the end-of-epoch check `0 % T == 0` can end the run early with
fewer than `T` steps. -/
theorem training_terminates_at_total_steps (K T B : Nat) (hK : 1 ≤ K) (hT : 1 ≤ T)
    (hB : K ≤ B) :
    ∃ s, trainLoop K T B ⟨0, 0⟩ T = some s ∧ s.global_step = T :=
  trainLoop_reaches K T B hK hT hB T ⟨0, 0⟩ hT (by omega)

/-- C6 (witness): instantiation of `training_terminates_at_total_steps`
with accumulation factor 2, total steps 3 and 5-batch epochs. -/
theorem training_terminates_at_total_steps_witness :
    ∃ s, trainLoop 2 3 5 ⟨0, 0⟩ 3 = some s ∧ s.global_step = 3 :=
  training_terminates_at_total_steps 2 3 5 (by decide) (by decide) (by decide)

/-- Helper for C7: the warmup multiplier lies in `[0, 1]` during the
warmup phase. -/
theorem warmupMult_mem_unit (W step : Nat) (h : step < W) :
    0 ≤ warmupMult W step ∧ warmupMult W step ≤ 1 := by
  have hden : (0 : ℚ) < max (W : ℚ) 1 := lt_of_lt_of_le one_pos (le_max_right _ _)
  unfold warmupMult
  constructor
  · exact div_nonneg (Nat.cast_nonneg step) (le_of_lt hden)
  · rw [div_le_one hden]
    exact le_trans (Nat.cast_le.mpr h.le) (le_max_left _ _)

/-- Helper for C7: the clamped decay progress lies in `[0, 1]`. -/
theorem schedProgress_mem_unit (W T step : Nat) :
    0 ≤ schedProgress W T step ∧ schedProgress W T step ≤ 1 :=
  ⟨le_min zero_le_one (le_max_left 0 _), min_le_left _ _⟩

/-- Helper for C7: concrete values of the clamped progress for the
scenario `warmup_steps = 500`, `total_steps = 10000`. -/
theorem schedProgress_scenario :
    schedProgress 500 10000 500 = 0 ∧ schedProgress 500 10000 10000 = 1 := by
  constructor <;>
    · unfold schedProgress
      push_cast
      norm_num [min_def, max_def]

/-- C7: the learning-rate schedule is a deterministic function of the
step with values in `[0, 1]`: below `warmup_steps` both decay kinds use
the linear ramp `step / max(warmup_steps, 1)`; from `warmup_steps` on,
the linear kind returns `1 - progress` and the cosine kind
`0.5 * (1 + cos(pi * progress))` with the progress clamped to `[0, 1]`;
and in the scenario `warmup_steps = 500`, `total_steps = 10000` with
cosine decay, `rate(250) = 0.5`, `rate(500) = 1` and
`rate(10000) = 0`. -/
theorem lr_schedule_contract (W T step : Nat) :
    (step < W → rateLinear W T step = warmupMult W step ∧
      rateCosineIs W T step ((warmupMult W step : ℚ) : ℝ)) ∧
    (W ≤ step → rateLinear W T step = 1 - schedProgress W T step) ∧
    (0 ≤ rateLinear W T step ∧ rateLinear W T step ≤ 1) ∧
    (∀ v : ℝ, rateCosineIs W T step v → 0 ≤ v ∧ v ≤ 1) ∧
    (∃! v : ℝ, rateCosineIs W T step v) ∧
    rateCosineIs 500 10000 250 ((1 : ℝ) / 2) ∧
    rateCosineIs 500 10000 500 1 ∧
    rateCosineIs 500 10000 10000 0 := by
  refine ⟨?_, ?_, ?_, ?_, ?_, ?_, ?_, ?_⟩
  · intro h
    exact ⟨by simp only [rateLinear]; rw [if_pos h], by simp [rateCosineIs, h]⟩
  · intro h
    simp only [rateLinear]
    rw [if_neg (not_lt.mpr h)]
  · by_cases h : step < W
    · simp only [rateLinear]
      rw [if_pos h]
      exact warmupMult_mem_unit W step h
    · simp only [rateLinear]
      rw [if_neg h]
      have := schedProgress_mem_unit W T step
      constructor <;> linarith [this.1, this.2]
  · intro v hv
    by_cases h : step < W
    · simp only [rateCosineIs] at hv
      rw [if_pos h] at hv
      have := warmupMult_mem_unit W step h
      rw [hv]
      constructor
      · exact_mod_cast this.1
      · exact_mod_cast this.2
    · simp only [rateCosineIs] at hv
      rw [if_neg h] at hv
      have hc1 := Real.neg_one_le_cos (Real.pi * ((schedProgress W T step : ℚ) : ℝ))
      have hc2 := Real.cos_le_one (Real.pi * ((schedProgress W T step : ℚ) : ℝ))
      rw [hv]
      constructor <;> linarith
  · by_cases h : step < W
    · refine ⟨((warmupMult W step : ℚ) : ℝ), by simp [rateCosineIs, h], ?_⟩
      intro y hy
      simp only [rateCosineIs] at hy
      rwa [if_pos h] at hy
    · refine ⟨(1 / 2 : ℝ) * (1 + Real.cos (Real.pi * ((schedProgress W T step : ℚ) : ℝ))),
        by simp [rateCosineIs, h], ?_⟩
      intro y hy
      simp only [rateCosineIs] at hy
      rwa [if_neg h] at hy
  · simp only [rateCosineIs]
    rw [if_pos (by norm_num : (250 : Nat) < 500)]
    have hw : warmupMult 500 250 = 1 / 2 := by
      unfold warmupMult
      push_cast
      norm_num [max_def]
    rw [hw]
    norm_num
  · simp only [rateCosineIs]
    rw [if_neg (by norm_num : ¬ (500 : Nat) < 500)]
    rw [schedProgress_scenario.1]
    push_cast
    rw [mul_zero, Real.cos_zero]
    norm_num
  · simp only [rateCosineIs]
    rw [if_neg (by norm_num : ¬ (10000 : Nat) < 500)]
    rw [schedProgress_scenario.2]
    push_cast
    rw [mul_one, Real.cos_pi]
    norm_num

/-- C7 (witness): instantiation of `lr_schedule_contract` at the
scenario values, discharging the phase hypotheses at concrete steps. -/
theorem lr_schedule_contract_witness :
    (rateLinear 500 10000 250 = warmupMult 500 250 ∧
      rateCosineIs 500 10000 250 ((warmupMult 500 250 : ℚ) : ℝ)) ∧
    rateLinear 500 10000 500 = 1 - schedProgress 500 10000 500 :=
  ⟨(lr_schedule_contract 500 10000 250).1 (by norm_num),
   (lr_schedule_contract 500 10000 500).2.1 (by norm_num)⟩

end ViT
